import Mathlib

/-!
Shallow embedding of the ranking-table renderer of `script.js`
(Volley-Batch/Volley-Batch.github.io).

The script fetches a team roster and a stats blob, sorts the teams by
descending `elo`, and emits one display row per team (rank, flag-decorated
name, rating fixed to one decimal place) plus a formatted last-update
timestamp.  Two variants of the flag decoration appear in the source: a
lookup table keyed by the first `_`-separated component of the team id, and
an algorithmic regional-indicator construction from a 2-letter country code.

JavaScript strings are modelled as Lean `String` (a list of code points;
all inputs the spec discusses are ASCII or flag emoji, where the two views
agree), JS numbers as `Rat`, and absent/null fields as `Option`.
`Array.prototype.sort` is a stable in-place sort, modelled by
`List.insertionSort`; the render functions return the post-call contents of
the `teams` array alongside the produced rows, so that the in-place
mutation performed by `teams.sort` stays observable.
-/

/-- A team record from `teams.json`: opaque `id` (may encode a country code
as its first `_`-separated component), display `name`, `elo` rating, and an
optional 2-letter `country_iso2` code (used by the algorithmic variant). -/
structure TeamRecord where
  id : Option String
  name : String
  elo : Rat
  country_iso2 : Option String
deriving Repr, DecidableEq

/-- One rendered table row: 1-based rank, the Team cell (flag decoration
joined with the name), and the Rating cell as a formatted string. -/
structure DisplayRow where
  rank : Nat
  team : String
  rating : String
deriving Repr, DecidableEq

/-- The stats blob from `stats.json`. -/
structure StatsRecord where
  last_update : String
deriving Repr, DecidableEq

/-- `String.fromCodePoint(0x1F1E6 + a - 65, 0x1F1E6 + b - 65)`: the
regional-indicator pair for two letters (`0x1F1E6` is the code point of the
regional indicator A). -/
def riPair (a b : Char) : String :=
  String.mk [Char.ofNat (0x1F1E6 + a.toNat - 65), Char.ofNat (0x1F1E6 + b.toNat - 65)]

/-- The `countryFlags` lookup table of the lookup variant, mapping short
country codes to flag emoji (each written here by its regional-indicator
letters; e.g. `riPair 'I' 'T'` is the Italian flag glyph). -/
def countryFlags : String → Option String
  | "ita" => some (riPair 'I' 'T')
  | "pol" => some (riPair 'P' 'L')
  | "rus" => some (riPair 'R' 'U')
  | "tur" => some (riPair 'T' 'R')
  | "bra" => some (riPair 'B' 'R')
  | "arg" => some (riPair 'A' 'R')
  | "ger" => some (riPair 'D' 'E')
  | "fra" => some (riPair 'F' 'R')
  | "bel" => some (riPair 'B' 'E')
  | "jpn" => some (riPair 'J' 'P')
  | "qat" => some (riPair 'Q' 'A')
  | "irn" => some (riPair 'I' 'R')
  | "svn" => some (riPair 'S' 'I')
  | "prt" => some (riPair 'P' 'T')
  | "cze" => some (riPair 'C' 'Z')
  | "gre" => some (riPair 'G' 'R')
  | "hrv" => some (riPair 'H' 'R')
  | "bul" => some (riPair 'B' 'G')
  | "srb" => some (riPair 'R' 'S')
  | _ => none

/-- Helper for `splitOnChar`; structural recursion over the characters,
`acc` holds the current chunk reversed. -/
def splitOnCharAux (sep : Char) : List Char → List Char → List (List Char)
  | [], acc => [acc.reverse]
  | c :: cs, acc =>
    if c = sep then acc.reverse :: splitOnCharAux sep cs []
    else splitOnCharAux sep cs (c :: acc)

/-- `String.prototype.split(sep)` on the code-point view of a string. -/
def splitOnChar (sep : Char) (cs : List Char) : List (List Char) :=
  splitOnCharAux sep cs []

/-- `teamId.split('_')[0]`: the first `_`-separated component. -/
def firstComponent (s : String) : String :=
  String.mk ((splitOnChar '_' s.data).headD [])

/-- `getCountryFlag(teamId)` of the lookup variant: empty for a falsy id
(null/undefined/empty string); otherwise the looked-up glyph followed by a
space, or empty when the first id component is not in the table. -/
def getCountryFlag (teamId : Option String) : String :=
  match teamId with
  | none => ""
  | some s =>
    if s = "" then ""
    else
      match countryFlags (firstComponent s) with
      | some flag => flag ++ " "
      | none => ""

/-- `String.prototype.toUpperCase` restricted to one character; ASCII case
mapping, which covers every input the country codes use. -/
def jsUpperChar (c : Char) : Char :=
  if 97 ≤ c.toNat ∧ c.toNat ≤ 122 then Char.ofNat (c.toNat - 32) else c

/-- `countryCodeToFlag(code)` of the algorithmic variant.  The two-element
match realises the `!code || code.length !== 2` guard (null, empty and
non-2-code-point strings all fall through to `""`); a length-2 code is
uppercased and each letter offset from the base `0x1F1E6`. -/
def countryCodeToFlag (code : Option String) : String :=
  match code with
  | none => ""
  | some s =>
    match s.data.map jsUpperChar with
    | [a, b] => riPair a b
    | _ => ""

/-- The comparator `(a, b) => b.elo - a.elo`: `a` sorts no later than `b`
exactly when `b.elo ≤ a.elo`. -/
def eloDesc (a b : TeamRecord) : Prop := b.elo ≤ a.elo

instance : DecidableRel eloDesc := fun a b =>
  inferInstanceAs (Decidable (b.elo ≤ a.elo))

instance : IsTotal TeamRecord eloDesc := ⟨fun a b => le_total b.elo a.elo⟩

instance : IsTrans TeamRecord eloDesc :=
  ⟨fun _ _ _ hab hbc => le_trans hbc hab⟩

/-- `teams.sort((a, b) => b.elo - a.elo)`: a stable sort by descending
`elo`, modelled by stable insertion sort. -/
def sortTeams (teams : List TeamRecord) : List TeamRecord :=
  teams.insertionSort eloDesc

/-- Core of `Number.prototype.toFixed(1)`: the integer nearest to `10 * x`,
ties resolved upward (ECMA-262 picks the larger candidate).  Computed on the
`num`/`den` representation as `⌊(20 num + den) / (2 den)⌋`; the lemma
`roundTenths_eq_floor` below shows this equals `⌊x * 10 + 1 / 2⌋`. -/
def roundTenths (x : Rat) : Int :=
  (20 * x.num + (x.den : Int)) / (2 * (x.den : Int))

/-- `parseFloat(elo).toFixed(1)`: sign, then the rounded tenths of the
magnitude printed with exactly one digit after the point. -/
def toFixed1 (x : Rat) : String :=
  if x < 0 then
    "-" ++ toString ((roundTenths (-x)).toNat / 10) ++ "." ++
      toString ((roundTenths (-x)).toNat % 10)
  else
    toString ((roundTenths x).toNat / 10) ++ "." ++
      toString ((roundTenths x).toNat % 10)

/-- The row template of the lookup variant at 0-based index `i`:
`${flag}${team.name}` (the flag, when present, carries its own trailing
space). -/
def mkRowLookup (i : Nat) (t : TeamRecord) : DisplayRow :=
  { rank := i + 1
    team := getCountryFlag t.id ++ t.name
    rating := toFixed1 t.elo }

/-- The row template of the algorithmic variant at 0-based index `i`:
`${flag} ${team.name}` (a space always separates flag and name). -/
def mkRowAlgo (i : Nat) (t : TeamRecord) : DisplayRow :=
  { rank := i + 1
    team := countryCodeToFlag t.country_iso2 ++ " " ++ t.name
    rating := toFixed1 t.elo }

/-- `teams.forEach((team, index) => ...)`: emit one row per team, threading
the 0-based index `i`. -/
def emitRows (mk : Nat → TeamRecord → DisplayRow) : Nat → List TeamRecord → List DisplayRow
  | _, [] => []
  | i, t :: ts => mk i t :: emitRows mk (i + 1) ts

/-- The lookup-variant render pass: sort in place, then emit one row per
team.  Returns the post-call contents of the `teams` array (mutated by
`Array.prototype.sort`) together with the rows. -/
def renderLookup (teams : List TeamRecord) : List TeamRecord × List DisplayRow :=
  (sortTeams teams, emitRows mkRowLookup 0 (sortTeams teams))

/-- The algorithmic-variant render pass, same shape as `renderLookup`. -/
def renderAlgo (teams : List TeamRecord) : List TeamRecord × List DisplayRow :=
  (sortTeams teams, emitRows mkRowAlgo 0 (sortTeams teams))

/-- Read a nonempty all-digit character list as a decimal number. -/
def digitsToNat (cs : List Char) : Option Nat :=
  if cs = [] then none
  else
    cs.foldl
      (fun acc c =>
        match acc with
        | none => none
        | some n => if c.isDigit then some (n * 10 + (c.toNat - 48)) else none)
      (some 0)

/-- `new Date(s)` on a local ISO-8601 string `YYYY-MM-DDTHH:MM:SS`:
the wall-clock fields (year, month, day, hour, minute), or `none` when the
string does not have that shape (JS would yield an Invalid Date). -/
def parseISO (s : String) : Option (Nat × Nat × Nat × Nat × Nat) :=
  match splitOnChar 'T' s.data with
  | [d, t] =>
    match splitOnChar '-' d, splitOnChar ':' t with
    | [y, m, dd], [hh, mm, _ss] =>
      match digitsToNat y, digitsToNat m, digitsToNat dd,
            digitsToNat hh, digitsToNat mm with
      | some yn, some mn, some dn, some hn, some minn =>
        some (yn, mn, dn, hn, minn)
      | _, _, _, _, _ => none
    | _, _ => none
  | _ => none

/-- English month names, 1-based. -/
def monthName : Nat → String
  | 1 => "January"
  | 2 => "February"
  | 3 => "March"
  | 4 => "April"
  | 5 => "May"
  | 6 => "June"
  | 7 => "July"
  | 8 => "August"
  | 9 => "September"
  | 10 => "October"
  | 11 => "November"
  | 12 => "December"
  | _ => ""

/-- Two-digit zero-padded field (the `'2-digit'` option). -/
def pad2 (n : Nat) : String :=
  if n < 10 then "0" ++ toString n else toString n

/-- Modelled from the spec: `toLocaleString('en-GB', options)` is
host-runtime behaviour absent from the source; per the spec's fixed style
it renders numeric day, full month name, 4-digit year, then 24-hour
`HH:MM`, as in `"29 October 2025, 20:22"`. -/
def formatEnGB (y m d hh mm : Nat) : String :=
  toString d ++ " " ++ monthName m ++ " " ++ toString y ++ ", " ++
    pad2 hh ++ ":" ++ pad2 mm

/-- The timestamp half of the render pass: parse `stats.last_update` and
format it under the fixed en-GB convention. -/
def renderTimestamp (stats : StatsRecord) : Option String :=
  (parseISO stats.last_update).map fun q =>
    formatEnGB q.1 q.2.1 q.2.2.1 q.2.2.2.1 q.2.2.2.2

/-- The spec's end-to-end scenario input:
`[{name:"A", elo:1400}, {name:"B", elo:1600}, {name:"C", elo:1600}]`. -/
def exampleABC : List TeamRecord :=
  [⟨none, "A", 1400, none⟩, ⟨none, "B", 1600, none⟩, ⟨none, "C", 1600, none⟩]

/-! ### Helper lemmas -/

lemma char_toNat_ofNat {n : Nat} (h : n < 55296) : (Char.ofNat n).toNat = n := by
  have hv : n.isValidChar := Or.inl h
  simp [Char.ofNat, hv, Char.ofNatAux, Char.toNat, UInt32.toNat, BitVec.toNat_ofNatLt]

lemma roundTenths_eq_floor (x : ℚ) : roundTenths x = ⌊x * 10 + 1 / 2⌋ := by
  have hden : ((x.den : ℚ)) ≠ 0 := Nat.cast_ne_zero.mpr x.den_nz
  have h2 : (((2 * x.den : ℕ)) : ℚ) ≠ 0 :=
    Nat.cast_ne_zero.mpr (Nat.mul_ne_zero two_ne_zero x.den_nz)
  have hnum : (x.num : ℚ) = x * (x.den : ℚ) := (div_eq_iff hden).mp (Rat.num_div_den x)
  have hx : x * 10 + 1 / 2 = (((20 * x.num + (x.den : ℤ)) : ℤ) : ℚ) / (((2 * x.den : ℕ)) : ℚ) := by
    rw [eq_div_iff h2]
    push_cast [hnum]
    ring
  rw [hx, Rat.floor_intCast_div_natCast]
  unfold roundTenths
  push_cast
  ring_nf

lemma sortTeams_sorted (ts : List TeamRecord) : List.Sorted eloDesc (sortTeams ts) :=
  List.sorted_insertionSort eloDesc ts

lemma sortTeams_perm (ts : List TeamRecord) : (sortTeams ts).Perm ts :=
  List.perm_insertionSort eloDesc ts

lemma filter_orderedInsert_elo (t : TeamRecord) (e : ℚ) (l : List TeamRecord) :
    (List.orderedInsert eloDesc t l).filter (fun u => decide (u.elo = e)) =
      if t.elo = e then t :: l.filter (fun u => decide (u.elo = e))
      else l.filter (fun u => decide (u.elo = e)) := by
  induction l with
  | nil => by_cases ht : t.elo = e <;> simp [ht]
  | cons u us ih =>
    by_cases hle : eloDesc t u
    · by_cases ht : t.elo = e <;>
        simp [List.orderedInsert, hle, List.filter_cons, ht]
    · have hgt : t.elo < u.elo := not_le.mp hle
      by_cases ht : t.elo = e
      · have hu : u.elo ≠ e := by rw [← ht]; exact ne_of_gt hgt
        simp [List.orderedInsert, hle, List.filter_cons, hu, ih, ht]
      · simp [List.orderedInsert, hle, List.filter_cons, ih, ht]

lemma sortTeams_filter_elo (ts : List TeamRecord) (e : ℚ) :
    (sortTeams ts).filter (fun u => decide (u.elo = e)) =
      ts.filter (fun u => decide (u.elo = e)) := by
  induction ts with
  | nil => rfl
  | cons t ts ih =>
    show (List.orderedInsert eloDesc t (sortTeams ts)).filter _ = _
    rw [filter_orderedInsert_elo]
    by_cases ht : t.elo = e <;> simp [List.filter_cons, ht, ih]

lemma length_emitRows (mk : Nat → TeamRecord → DisplayRow) (l : List TeamRecord) :
    ∀ i, (emitRows mk i l).length = l.length := by
  induction l with
  | nil => intro i; rfl
  | cons t ts ih => intro i; simp [emitRows, ih]

lemma map_rank_emitRows (mk : Nat → TeamRecord → DisplayRow)
    (hmk : ∀ i t, (mk i t).rank = i + 1) (l : List TeamRecord) :
    ∀ i, (emitRows mk i l).map DisplayRow.rank = List.range' (i + 1) l.length := by
  induction l with
  | nil => intro i; rfl
  | cons t ts ih =>
    intro i
    show (mk i t).rank :: (emitRows mk (i + 1) ts).map DisplayRow.rank =
      (i + 1) :: List.range' (i + 2) ts.length
    rw [hmk, ih (i + 1)]

/-! ### Claims -/

/-- C1: for every input sequence of `TeamRecord`s, `render` produces a
`DisplayRow` sequence of the same length as the input, the teams it draws
the rows from are ordered by non-increasing `elo`, and the `rank` fields of
the output rows are exactly `1, 2, ..., n` in order, with no gaps and no
duplicates. -/
theorem C1_length_order_ranks (ts : List TeamRecord) :
    (renderLookup ts).2.length = ts.length ∧
    List.Sorted eloDesc (renderLookup ts).1 ∧
    (renderLookup ts).2.map DisplayRow.rank = List.range' 1 ts.length := by
  refine ⟨?_, sortTeams_sorted ts, ?_⟩
  · show (emitRows mkRowLookup 0 (sortTeams ts)).length = ts.length
    rw [length_emitRows, (sortTeams_perm ts).length_eq]
  · show (emitRows mkRowLookup 0 (sortTeams ts)).map DisplayRow.rank = List.range' 1 ts.length
    rw [map_rank_emitRows mkRowLookup (fun _ _ => rfl), (sortTeams_perm ts).length_eq]

/-- C2: the sort by descending `elo` is stable — for every input, the teams
holding any fixed `elo` value appear in the output in their input order; in
particular `[{A,1400}, {B,1600}, {C,1600}]` renders with ranks
`B=1, C=2, A=3`. -/
theorem C2_stable_sort :
    (∀ (ts : List TeamRecord) (e : ℚ),
      (sortTeams ts).filter (fun u => decide (u.elo = e)) =
        ts.filter (fun u => decide (u.elo = e))) ∧
    (renderLookup exampleABC).2.map (fun r => (r.rank, r.team)) =
      [(1, "B"), (2, "C"), (3, "A")] := by
  refine ⟨sortTeams_filter_elo, ?_⟩
  decide

/-- C3 as stated is false: `teams.sort` mutates the input array in place,
so the teams sequence handed to the renderer is not unchanged after the
call; here a concrete 2-element input comes back reordered. -/
theorem C3_counterexample :
    (renderLookup [⟨none, "A", 1400, none⟩, ⟨none, "B", 1600, none⟩]).1 ≠
      [⟨none, "A", 1400, none⟩, ⟨none, "B", 1600, none⟩] := by
  decide

/-- C3 amended: the render call's only effect on the teams sequence is to
reorder it in place into non-increasing `elo` order; the records themselves
and their multiset are preserved, and no other state is touched. -/
theorem C3_sort_in_place (ts : List TeamRecord) :
    (renderLookup ts).1.Perm ts ∧ List.Sorted eloDesc (renderLookup ts).1 :=
  ⟨sortTeams_perm ts, sortTeams_sorted ts⟩

lemma countryCodeToFlag_upper (a b : Char)
    (ha1 : 65 ≤ a.toNat) (ha2 : a.toNat ≤ 90)
    (hb1 : 65 ≤ b.toNat) (hb2 : b.toNat ≤ 90) :
    countryCodeToFlag (some (String.mk [a, b])) = riPair a b := by
  have hA : jsUpperChar a = a := by unfold jsUpperChar; rw [if_neg (by omega)]
  have hB : jsUpperChar b = b := by unfold jsUpperChar; rw [if_neg (by omega)]
  have hmap : (String.mk [a, b]).data.map jsUpperChar = [a, b] := by
    show [jsUpperChar a, jsUpperChar b] = [a, b]
    rw [hA, hB]
  show (match (String.mk [a, b]).data.map jsUpperChar with
    | [x, y] => riPair x y
    | _ => "") = riPair a b
  rw [hmap]

lemma countryCodeToFlag_not_two (s : String) (h : s.length ≠ 2) :
    countryCodeToFlag (some s) = "" := by
  show (match s.data.map jsUpperChar with
    | [a, b] => riPair a b
    | _ => "") = ""
  split
  · next a b heq =>
      exfalso
      apply h
      have hlen : (s.data.map jsUpperChar).length = 2 := by rw [heq]; rfl
      rw [List.length_map] at hlen
      exact hlen
  · rfl

lemma jsUpperChar_idem (c : Char) : jsUpperChar (jsUpperChar c) = jsUpperChar c := by
  by_cases h : 97 ≤ c.toNat ∧ c.toNat ≤ 122
  · have h1 : jsUpperChar c = Char.ofNat (c.toNat - 32) := by
      unfold jsUpperChar; rw [if_pos h]
    have ht : (Char.ofNat (c.toNat - 32)).toNat = c.toNat - 32 :=
      char_toNat_ofNat (by omega)
    rw [h1]
    unfold jsUpperChar
    rw [if_neg (by rw [ht]; omega)]
  · have h1 : jsUpperChar c = c := by unfold jsUpperChar; rw [if_neg h]
    rw [h1, h1]

/-- C4: in the algorithmic variant, every exactly-2-letter uppercase code
maps to the two-code-point string whose code points are `0x1F1E6` plus each
letter's alphabetic offset, and null or non-2-letter inputs (e.g. `"ITA"`)
map to the empty string. -/
theorem C4_algorithmic_flag :
    (∀ a b : Char, 65 ≤ a.toNat → a.toNat ≤ 90 → 65 ≤ b.toNat → b.toNat ≤ 90 →
      countryCodeToFlag (some (String.mk [a, b])) = riPair a b) ∧
    countryCodeToFlag none = "" ∧
    countryCodeToFlag (some "ITA") = "" ∧
    (∀ s : String, s.length ≠ 2 → countryCodeToFlag (some s) = "") :=
  ⟨countryCodeToFlag_upper, rfl, by decide, countryCodeToFlag_not_two⟩

/-- C4 witness: `"IT"` is a 2-letter uppercase code and yields the
regional-indicator pair for I and T; `"ITA"` has length 3 and yields the
empty string. -/
theorem C4_witness :
    (65 ≤ 'I'.toNat ∧ 'I'.toNat ≤ 90 ∧ 65 ≤ 'T'.toNat ∧ 'T'.toNat ≤ 90 ∧
      countryCodeToFlag (some "IT") = riPair 'I' 'T') ∧
    ("ITA".length ≠ 2 ∧ countryCodeToFlag (some "ITA") = "") := by
  refine ⟨⟨by decide, by decide, by decide, by decide, ?_⟩, by decide,
    C4_algorithmic_flag.2.2.2 "ITA" (by decide)⟩
  exact C4_algorithmic_flag.1 'I' 'T' (by decide) (by decide) (by decide) (by decide)

/-- C5: in the lookup variant the country code is the first `_`-separated
component of the team id; a code present in the table (`"ita"`) yields that
table's glyph (with its trailing space) as the Team-cell decoration, and an
unrecognized code (`"xyz"`) or a missing id yields the empty decoration. -/
theorem C5_lookup_table :
    getCountryFlag (some "ita") = riPair 'I' 'T' ++ " " ∧
    getCountryFlag (some "ita_trentino_itas") = riPair 'I' 'T' ++ " " ∧
    getCountryFlag (some "xyz") = "" ∧
    getCountryFlag none = "" ∧
    ∀ tid : String, getCountryFlag (some tid) =
      match countryFlags (firstComponent tid) with
      | some flag => flag ++ " "
      | none => "" := by
  refine ⟨by decide, by decide, by decide, rfl, ?_⟩
  intro tid
  by_cases h : tid = ""
  · subst h; decide
  · simp [getCountryFlag, h]

/-- C6: the timestamp `"2025-10-29T20:22:00"` is parsed as a date-time
value and rendered as the single deterministic string of the fixed en-GB
style (numeric day, full month name, 4-digit year, 24-hour `HH:MM`). -/
theorem C6_timestamp_format :
    renderTimestamp ⟨"2025-10-29T20:22:00"⟩ = some "29 October 2025, 20:22" := by
  decide

/-- C7: the rating cell is the `elo` value formatted to exactly one decimal
place under the one fixed rounding rule (`roundTenths`, the floor of
`10·elo + 1/2`, whose result is always within half a unit of `10·elo`); in
particular `elo = 1500` renders as `"1500.0"`. -/
theorem C7_rating_one_decimal :
    (∀ (i : Nat) (t : TeamRecord), (mkRowLookup i t).rating = toFixed1 t.elo) ∧
    toFixed1 1500 = "1500.0" ∧
    (∀ x : ℚ, roundTenths x = ⌊x * 10 + 1 / 2⌋) ∧
    (∀ x : ℚ, |((roundTenths x : ℚ)) - x * 10| ≤ 1 / 2) := by
  refine ⟨fun _ _ => rfl, by decide, roundTenths_eq_floor, ?_⟩
  intro x
  rw [roundTenths_eq_floor]
  have h1 := Int.floor_le (x * 10 + 1 / 2)
  have h2 := Int.lt_floor_add_one (x * 10 + 1 / 2)
  rw [abs_le]
  constructor <;> linarith

/-- C8: the empty teams input renders without error to the empty row
sequence, and in particular no rank-1 row is emitted. -/
theorem C8_empty_input :
    (renderLookup []).2 = [] ∧
    ((renderLookup []).2.map DisplayRow.rank).count 1 = 0 :=
  ⟨rfl, rfl⟩

/-- C9: the algorithmic flag function is case-insensitive on 2-letter
alphabetic codes — the flag of `[a, b]` equals the flag of the uppercased
code `[toUpperCase a, toUpperCase b]`. -/
theorem C9_case_insensitive (a b : Char)
    (ha : 65 ≤ a.toNat ∧ a.toNat ≤ 90 ∨ 97 ≤ a.toNat ∧ a.toNat ≤ 122)
    (hb : 65 ≤ b.toNat ∧ b.toNat ≤ 90 ∨ 97 ≤ b.toNat ∧ b.toNat ≤ 122) :
    countryCodeToFlag (some (String.mk [a, b])) =
      countryCodeToFlag (some (String.mk [jsUpperChar a, jsUpperChar b])) := by
  clear ha hb
  show (match [jsUpperChar a, jsUpperChar b] with
    | [x, y] => riPair x y
    | _ => "") =
    (match [jsUpperChar (jsUpperChar a), jsUpperChar (jsUpperChar b)] with
    | [x, y] => riPair x y
    | _ => "")
  rw [jsUpperChar_idem, jsUpperChar_idem]

/-- C9 witness: `"it"` consists of two lowercase letters and yields the
same flag as `"IT"`. -/
theorem C9_witness :
    (97 ≤ 'i'.toNat ∧ 'i'.toNat ≤ 122) ∧
    countryCodeToFlag (some "it") = countryCodeToFlag (some "IT") := by
  have h := C9_case_insensitive 'i' 't' (Or.inr (by decide)) (Or.inr (by decide))
  have h2 : String.mk [jsUpperChar 'i', jsUpperChar 't'] = "IT" := by decide
  refine ⟨by decide, ?_⟩
  rw [← h2]
  exact h

/-- C10: the two variants join flag and name differently.  The algorithmic
Team cell is always `flag ++ " " ++ name`, so an empty flag (null code or
non-2-letter code) leaves a leading space before the name; the lookup Team
cell appends the name directly, a recognized flag carrying its own trailing
space and an unrecognized code contributing nothing, so the cell is then
exactly the name. -/
theorem C10_team_cell_join :
    (∀ (i : Nat) (t : TeamRecord),
      (mkRowAlgo i t).team = countryCodeToFlag t.country_iso2 ++ " " ++ t.name) ∧
    (∀ (i : Nat) (t : TeamRecord), t.country_iso2 = none →
      (mkRowAlgo i t).team = " " ++ t.name) ∧
    (∀ (i : Nat) (t : TeamRecord) (s : String), t.country_iso2 = some s →
      s.length ≠ 2 → (mkRowAlgo i t).team = " " ++ t.name) ∧
    (∀ (i : Nat) (t : TeamRecord) (tid : String), t.id = some tid →
      countryFlags (firstComponent tid) = none → (mkRowLookup i t).team = t.name) ∧
    (∀ (i : Nat) (t : TeamRecord) (tid g : String), t.id = some tid →
      countryFlags (firstComponent tid) = some g →
      (mkRowLookup i t).team = g ++ " " ++ t.name) := by
  refine ⟨fun _ _ => rfl, ?_, ?_, ?_, ?_⟩
  · intro i t h
    show countryCodeToFlag t.country_iso2 ++ " " ++ t.name = " " ++ t.name
    rw [h]
    rfl
  · intro i t s h hlen
    show countryCodeToFlag t.country_iso2 ++ " " ++ t.name = " " ++ t.name
    rw [h, countryCodeToFlag_not_two s hlen]
    rfl
  · intro i t tid h hnone
    show getCountryFlag t.id ++ t.name = t.name
    rw [h]
    by_cases he : tid = ""
    · subst he; rfl
    · simp [getCountryFlag, he, hnone]
  · intro i t tid g h hsome
    show getCountryFlag t.id ++ t.name = g ++ " " ++ t.name
    rw [h]
    have he : tid ≠ "" := by
      intro he
      subst he
      rw [show countryFlags (firstComponent "") = none from rfl] at hsome
      exact Option.noConfusion hsome
    simp [getCountryFlag, he, hsome, String.append_assoc]

/-- C10 witness: an unrecognized lookup code gives a bare name, a null
algorithmic code gives a space-prefixed name, a 3-letter algorithmic code
gives a space-prefixed name, and a recognized lookup code gives the glyph,
its trailing space, then the name. -/
theorem C10_witness :
    ((⟨some "xyz_volley", "X", 1000, none⟩ : TeamRecord).id = some "xyz_volley" ∧
      countryFlags (firstComponent "xyz_volley") = none ∧
      (mkRowLookup 0 ⟨some "xyz_volley", "X", 1000, none⟩).team = "X") ∧
    ((⟨none, "Y", 1000, none⟩ : TeamRecord).country_iso2 = none ∧
      (mkRowAlgo 0 ⟨none, "Y", 1000, none⟩).team = " " ++ "Y") ∧
    ((⟨none, "Y", 1000, some "ITA"⟩ : TeamRecord).country_iso2 = some "ITA" ∧
      "ITA".length ≠ 2 ∧
      (mkRowAlgo 0 ⟨none, "Y", 1000, some "ITA"⟩).team = " " ++ "Y") ∧
    (countryFlags (firstComponent "ita_team") = some (riPair 'I' 'T') ∧
      (mkRowLookup 0 ⟨some "ita_team", "Z", 1000, none⟩).team =
        riPair 'I' 'T' ++ " " ++ "Z") :=
  ⟨⟨rfl, by decide, C10_team_cell_join.2.2.2.1 0 _ "xyz_volley" rfl (by decide)⟩,
    ⟨rfl, C10_team_cell_join.2.1 0 _ rfl⟩,
    ⟨rfl, by decide, C10_team_cell_join.2.2.1 0 _ "ITA" rfl (by decide)⟩,
    ⟨by decide, C10_team_cell_join.2.2.2.2 0 _ "ita_team" (riPair 'I' 'T') rfl (by decide)⟩⟩
